import Mathlib

/-!
Verification of the dependency-graph traversal and correlation engine of a
Jira MCP server.  The definitions below are a shallow embedding of the
TypeScript source: the `jira_dependency_analysis` traversal and insights
computation, the HTTP retry loop of `JiraClient.request`, the similarity
aggregation of `jira_find_similar_tickets`, the sparse-ticket classifier,
the Confluence-link extractor over ADF trees, and the keyword extraction
passes.  Remote fetches are modelled as oracles (`String → Option RawIssue`
and the like); JavaScript `Set`/`Map` values are modelled as insertion-order
lists with add-if-absent semantics; JS truthiness on optional strings is
modelled explicitly (absent or empty string is falsy).
-/

namespace JiraDep

/-- JS-style truthiness for an optional string: `undefined`/absent and the
empty string are falsy. -/
def jsFalsy : Option String → Bool
  | none => true
  | some s => s == ""

/-- JS `a || b` on optional strings (falls through on `undefined` and `""`). -/
def jsOr (a b : Option String) : Option String :=
  if jsFalsy a then b else a

/-- JS `a || d` with a definite default string, as in
`link.type?.outward || "relates to"`. -/
def jsOrDefault (a : Option String) (d : String) : String :=
  match a with
  | none => d
  | some s => if s == "" then d else s

/-- JS `s || undefined`: collapse an empty string to `none`, as in
`adfToPlainText(...) || undefined`. -/
def jsOrUndefined (a : Option String) : Option String :=
  match a with
  | none => none
  | some s => if s == "" then none else some s

/-- Add-if-absent on an insertion-order list, modelling `Set.add` of a JS
`Set` (and the guarded `push` used for `circularDeps`). -/
def setAdd (l : List String) (s : String) : List String :=
  if l.contains s then l else l ++ [s]

/-- JS `arr.slice(-n)` for a non-negative `n` (note `slice(-0)` is
`slice(0)`, the whole array). -/
def sliceLastJS (n : Nat) (xs : List α) : List α :=
  if n = 0 then xs else xs.drop (xs.length - n)

/-- Decidable substring containment on character lists (JS
`String.prototype.includes`; the empty pattern is contained everywhere). -/
def infixOf (pat : List Char) : List Char → Bool
  | [] => pat.isEmpty
  | c :: rest => pat.isPrefixOf (c :: rest) || infixOf pat rest

/-- JS `s.includes(pat)`. -/
def strContains (s pat : String) : Bool :=
  infixOf pat.data s.data

/-- JS `s.toLowerCase()` restricted to ASCII (every string the comparisons
below are applied to is compared against ASCII vocabulary), implemented
character-wise so that it evaluates inside the kernel. -/
def lowerStr (s : String) : String :=
  String.mk (s.data.map Char.toLower)

/- ## Raw Jira payloads (the fields read by the traversal) -/

/-- A raw `author`/`assignee`/`reporter` object (`accountId`, `displayName`
may be absent). -/
structure RawUser where
  accountId : Option String
  displayName : Option String
deriving Repr, DecidableEq

/-- A raw `priority` object. -/
structure RawPriority where
  id : Option String
  name : Option String
deriving Repr, DecidableEq

/-- A raw comment: `plainBody` is the result of `adfToPlainText(c.body)`. -/
structure RawComment where
  id : Option String
  author : Option RawUser
  created : Option String
  plainBody : String
deriving Repr, DecidableEq

/-- A raw `components[]` entry after `String(c.id ?? "")`/`c.name ?? ""`
normalization. -/
structure Component where
  id : String
  name : String
deriving Repr, DecidableEq

/-- One entry of the raw `issuelinks` field.  `outwardIssue`/`inwardIssue`
hold the linked issue's key when the respective object is present;
`typeOutward`/`typeInward` model `link.type?.outward` / `link.type?.inward`. -/
structure IssueLink where
  outwardIssue : Option String
  inwardIssue : Option String
  typeOutward : Option String
  typeInward : Option String
deriving Repr, DecidableEq

/-- The raw issue fields consumed by the traversal (`getIssue` response);
`description` is the plain-text rendering `adfToPlainText(fields.description)`
with `none` for an absent field. -/
structure RawIssue where
  summary : Option String
  status : Option String
  issuetype : Option String
  description : Option String
  comments : List RawComment
  labels : List String
  components : List Component
  assignee : Option RawUser
  reporter : Option RawUser
  priority : Option RawPriority
  issuelinks : List IssueLink
deriving Repr, DecidableEq

/- ## Normalized graph node and edge -/

structure UserRef where
  accountId : String
  displayName : String
deriving Repr, DecidableEq

structure PriorityRef where
  id : String
  name : String
deriving Repr, DecidableEq

structure CommentRec where
  id : String
  author : UserRef
  created : String
  body : String
deriving Repr, DecidableEq

/-- A node of the dependency graph (`IssueRelationshipNode`). -/
structure NodeRec where
  key : String
  summary : String
  status : String
  issueType : String
  description : Option String
  comments : List CommentRec
  labels : List String
  components : List Component
  assignee : Option UserRef
  reporter : Option UserRef
  priority : Option PriorityRef
deriving Repr, DecidableEq

/-- A directed edge; `fromKey`/`toKey`/`linkType` embed the source's
`from`/`to`/`type` fields (`from` is a Lean keyword). -/
structure Edge where
  fromKey : String
  toKey : String
  linkType : String
deriving Repr, DecidableEq

def mkUser (u : RawUser) : UserRef :=
  ⟨u.accountId.getD "", u.displayName.getD ""⟩

def mkComment (c : RawComment) : CommentRec :=
  ⟨c.id.getD "", (c.author.map mkUser).getD ⟨"", ""⟩, c.created.getD "", c.plainBody⟩

/-- Build the node record inserted into `nodes` from a fetched raw issue
(the object literal passed to `nodes.set(issueKey, {...})`). -/
def mkNode (k : String) (raw : RawIssue) (commentLimit : Nat) : NodeRec where
  key := k
  summary := raw.summary.getD ""
  status := raw.status.getD ""
  issueType := raw.issuetype.getD ""
  description := jsOrUndefined raw.description
  comments := (sliceLastJS commentLimit raw.comments).map mkComment
  labels := raw.labels
  components := raw.components
  assignee := raw.assignee.map mkUser
  reporter := raw.reporter.map mkUser
  priority := raw.priority.map (fun p => ⟨p.id.getD "", p.name.getD ""⟩)

/-- Derive `(targetKey, linkType)` from one raw link: `outwardIssue` wins
over `inwardIssue`, the direction-specific type name defaults to
`"relates to"`, and a falsy `targetKey` (absent object or empty key) skips
the link (`if (targetKey && linkType)`). -/
def deriveLink (l : IssueLink) : Option (String × String) :=
  match l.outwardIssue with
  | some k => if k == "" then none else some (k, jsOrDefault l.typeOutward "relates to")
  | none =>
    match l.inwardIssue with
    | some k => if k == "" then none else some (k, jsOrDefault l.typeInward "relates to")
    | none => none

/-- The per-invocation mutable traversal state.  `fetchLog` records every
key for which `client.getIssue` was invoked, in call order (it lets the
theorems say a node is "not re-fetched"). -/
structure TravState where
  nodes : List NodeRec
  edges : List Edge
  visited : List String
  visiting : List String
  circularDeps : List String
  fetchLog : List String
deriving Repr, DecidableEq

def initState : TravState := ⟨[], [], [], [], [], []⟩

/-- The `for (const link of issuelinks)` loop body: append the edge
unconditionally, then recurse into the target when `currentDepth < maxDepth`
(the recursive call is passed in as `recurse`, and `doRec` is the
pre-computed `currentDepth < input.depth` test). -/
def linksLoop (recurse : String → TravState → TravState) (doRec : Bool) (k : String) :
    List IssueLink → TravState → TravState
  | [], st => st
  | l :: ls, st =>
    match deriveLink l with
    | none => linksLoop recurse doRec k ls st
    | some (t, ty) =>
      let st1 := { st with edges := st.edges ++ [⟨k, t, ty⟩] }
      let st2 := if doRec then recurse t st1 else st1
      linksLoop recurse doRec k ls st2

/-- The recursive `traverse(issueKey, currentDepth)` of
`jira_dependency_analysis`.  `fetch` is the oracle for
`client.getIssue(issueKey, [...])` where `none` models the call throwing
(the `catch {}` path).  The extra `fuel` argument makes the recursion
structural; a nested call always has `d + 1` and `fuel - 1`, and recursion
only happens when `d < maxDepth`, so starting with `fuel = maxDepth + 1` at
`d = 1` the fuel can never reach `0` before the depth guard fires: the fuel
never truncates the traversal. -/
def traverseF (fetch : String → Option RawIssue) (maxDepth commentLimit : Nat) :
    Nat → String → Nat → TravState → TravState
  | 0, _, _, st => st
  | fuel + 1, k, d, st =>
    if d > maxDepth then st
    else if st.visited.contains k then st
    else if st.visiting.contains k then
      { st with circularDeps := setAdd st.circularDeps (k ++ " (circular dependency detected)") }
    else
      let st1 := { st with visiting := setAdd st.visiting k }
      let st2 :=
        match fetch k with
        | none => { st1 with fetchLog := st1.fetchLog ++ [k] }
        | some raw =>
          let stf := { st1 with fetchLog := st1.fetchLog ++ [k] }
          let stn :=
            if stf.nodes.any (fun n => n.key == k) then stf
            else { stf with nodes := stf.nodes ++ [mkNode k raw commentLimit] }
          linksLoop (fun t s => traverseF fetch maxDepth commentLimit fuel t (d + 1) s)
            (decide (d < maxDepth)) k raw.issuelinks stn
      { st2 with visiting := st2.visiting.erase k, visited := setAdd st2.visited k }

/-- `await traverse(input.issueKey, 1)` on a fresh state. -/
def runTraversal (fetch : String → Option RawIssue) (maxDepth commentLimit : Nat)
    (root : String) : TravState :=
  traverseF fetch maxDepth commentLimit (maxDepth + 1) root 1 initState

/- ## Insights (step 5 of `jira_dependency_analysis`) -/

/-- A relation label of blocking type: `e.type.toLowerCase().includes("block")`. -/
def isBlockingLabel (ty : String) : Bool :=
  strContains (lowerStr ty) "block"

/-- The first numeric insight: `total_dependencies: depGraph.nodes.length - 1`
(a signed value; nothing clamps it at zero). -/
def totalDependencies (nodes : List NodeRec) : Int :=
  (nodes.length : Int) - 1

/-- The second numeric insight, verbatim from the source:
`Math.max(...depGraph.edges.filter((e) => e.from === input.issueKey).map(() => 1), 0)`.
Note the filter tests only the edge origin, not the relation label. -/
def blockingChainLength (edges : List Edge) (rootKey : String) : Nat :=
  ((edges.filter (fun e => e.fromKey == rootKey)).map (fun _ => 1)).foldl max 0

/-- The two schema-relevant numeric fields of the `insights` object (the
remaining fields, `avg_blocker_age_days` and `patterns`, are derived from
the blockers list and are not needed by any claim). -/
structure InsightsCore where
  total_dependencies : Int
  blocking_chain_length : Nat
deriving Repr, DecidableEq

def computeInsightsCore (nodes : List NodeRec) (edges : List Edge) (rootKey : String) :
    InsightsCore :=
  ⟨totalDependencies nodes, blockingChainLength edges rootKey⟩

/-- The constraint the declared output schema (`DependencyInsights`,
`z.number().int().min(0)`) places on `total_dependencies`. -/
def insightsWithinSchema (i : InsightsCore) : Prop :=
  0 ≤ i.total_dependencies

instance (i : InsightsCore) : Decidable (insightsWithinSchema i) := by
  unfold insightsWithinSchema; infer_instance

/- ## The HTTP retry loop of `JiraClient.request` -/

/-- Outcome of one `fetch(url, init)` call: a 2xx body, a 204, a non-2xx
status (with an optional parsed `Retry-After` header in seconds), or the
fetch itself throwing (network failure). -/
inductive JiraResp where
  | ok (body : String)
  | noContent
  | httpStatus (code : Nat) (retryAfter : Option Nat)
  | netError (msg : String)
deriving Repr, DecidableEq

/-- The errors the loop can surface: the `Error` built from a non-retryable
HTTP status, a network error, or the final `"Unknown Jira client error"`
(thrown when the loop exits with `lastErr` still unset). -/
inductive JiraErr where
  | httpError (code : Nat)
  | network (msg : String)
  | unknown
deriving Repr, DecidableEq

instance : DecidableEq (Except JiraErr (Option String)) := fun a b =>
  match a, b with
  | .ok x, .ok y => if h : x = y then isTrue (by rw [h]) else isFalse (by simp [h])
  | .error x, .error y => if h : x = y then isTrue (by rw [h]) else isFalse (by simp [h])
  | .ok _, .error _ => isFalse (by simp)
  | .error _, .ok _ => isFalse (by simp)

/-- Observable outcome of one `request` call: the returned body (`none` for
a 204), or the thrown error; `fetches` counts `fetch` invocations and
`waits` logs every backoff delay in milliseconds, in order. -/
structure RunLog where
  result : Except JiraErr (Option String)
  fetches : Nat
  waits : List Nat
deriving Repr, DecidableEq

/-- `res.status === 429 || (res.status >= 500 && res.status < 600)`. -/
def isRetryableStatus (code : Nat) : Bool :=
  code == 429 || (500 ≤ code && code < 600)

/-- The `while (attempt < maxAttempts)` loop of `JiraClient.request`.
`responses attempt` is the outcome of the fetch performed in the iteration
with that `attempt` value (every continuing path increments `attempt`
exactly once).  A non-retryable status throws inside the `try`, so it is
caught by the loop's own `catch`, which records it as `lastErr`, increments
`attempt`, and — when attempts remain — sleeps `300 * 2^attempt` ms and
retries; only `attempt >= maxAttempts` rethrows.  A retryable status sleeps
`retryAfter * 1000` ms (or `500 * 2^attempt`) and continues; if the loop
condition then fails, `lastErr ?? Error("Unknown ...")` is thrown. -/
def requestGo (responses : Nat → JiraResp) (maxAttempts : Nat) :
    Nat → Nat → Option JiraErr → Nat → List Nat → RunLog
  | 0, _, lastErr, fetches, waits => ⟨.error (lastErr.getD .unknown), fetches, waits⟩
  | fuel + 1, attempt, lastErr, fetches, waits =>
    if attempt < maxAttempts then
      match responses attempt with
      | .noContent => ⟨.ok none, fetches + 1, waits⟩
      | .ok body => ⟨.ok (some body), fetches + 1, waits⟩
      | .httpStatus code ra =>
        if isRetryableStatus code then
          let wait := match ra with | some s => s * 1000 | none => 500 * 2 ^ attempt
          requestGo responses maxAttempts fuel (attempt + 1) lastErr (fetches + 1)
            (waits ++ [wait])
        else
          let e := JiraErr.httpError code
          if attempt + 1 ≥ maxAttempts then ⟨.error e, fetches + 1, waits⟩
          else
            requestGo responses maxAttempts fuel (attempt + 1) (some e) (fetches + 1)
              (waits ++ [300 * 2 ^ (attempt + 1)])
      | .netError m =>
        let e := JiraErr.network m
        if attempt + 1 ≥ maxAttempts then ⟨.error e, fetches + 1, waits⟩
        else
          requestGo responses maxAttempts fuel (attempt + 1) (some e) (fetches + 1)
            (waits ++ [300 * 2 ^ (attempt + 1)])
    else ⟨.error (lastErr.getD .unknown), fetches, waits⟩

/-- One `request` call (`maxAttempts = 3`, `attempt = 0`, no `lastErr`).
The structural `fuel` argument starts at `maxAttempts`; every continuing
iteration increments `attempt` and decrements `fuel`, keeping
`fuel = maxAttempts - attempt`, so the fuel-0 branch and the failed loop
condition coincide: the fuel never cuts the loop short. -/
def request (responses : Nat → JiraResp) : RunLog :=
  requestGo responses 3 3 0 none 0 []

/- ## Similarity search aggregation (`jira_find_similar_tickets`) -/

/-- A candidate accumulated in `similarTicketsMap`; `confidenceScore` is
modelled as an exact rational (the source uses JS floats, but every claim
is about the symbolic update formula, not rounding). -/
structure SimilarTicket where
  key : String
  summary : String
  status : String
  matchReason : String
  confidenceScore : ℚ
  labels : List String
  components : List Component
deriving Repr, DecidableEq

/-- A raw issue as returned by one search strategy's `searchIssues` call. -/
structure RawCand where
  key : String
  summary : Option String
  status : Option String
  labels : List String
  components : List Component
deriving Repr, DecidableEq

/-- One entry of `searches`, together with that strategy's outcome:
`results = none` models the `searchIssues` call throwing (the search is
skipped), `some issues` its returned issue list. -/
structure SearchSpec where
  strategy : String
  weight : ℚ
  results : Option (List RawCand)
deriving Repr, DecidableEq

/-- The body of `for (const issue of issues)`: skip the source ticket;
boost an already-seen candidate by `min(1.0, score + weight * 0.3)` and
append `", " ++ strategy` to its `matchReason`; otherwise insert a fresh
candidate with `confidenceScore = weight` and `matchReason = strategy`.
`similarTicketsMap` is modelled as an insertion-order list with unique
keys. -/
def mergeIssue (sourceKey : String) (w : ℚ) (strat : String)
    (m : List SimilarTicket) (iss : RawCand) : List SimilarTicket :=
  if iss.key == sourceKey then m
  else if m.any (fun t => t.key == iss.key) then
    m.map (fun t =>
      if t.key == iss.key then
        { t with
          confidenceScore := min 1 (t.confidenceScore + w * (3 / 10)),
          matchReason := t.matchReason ++ ", " ++ strat }
      else t)
  else
    m ++ [⟨iss.key, iss.summary.getD "", iss.status.getD "", strat, w,
           iss.labels, iss.components⟩]

/-- The `for (const search of searches)` loop: a failed search contributes
nothing (and is not recorded in `strategiesUsed`); a successful one merges
each returned issue in order. -/
def runSearches (sourceKey : String) (searches : List SearchSpec) :
    List SimilarTicket × List String :=
  searches.foldl
    (fun acc s =>
      match s.results with
      | none => acc
      | some issues => (issues.foldl (mergeIssue sourceKey s.weight s.strategy) acc.1,
                        acc.2 ++ [s.strategy]))
    ([], [])

/- ## Sparse-ticket classification (step 5b of `jira_dependency_analysis`) -/

/-- The root-ticket metadata the sparse test reads (`ticket.description` is
already `adfToPlainText(...) || undefined`, so `none` covers both a missing
and an empty description). -/
structure TicketMeta where
  components : List Component
  labels : List String
  description : Option String
deriving Repr, DecidableEq

/-- `isSparseTicket`, verbatim: no components, OR missing/short (< 50 chars)
description, OR no labels. -/
def isSparseTicket (t : TicketMeta) : Bool :=
  t.components.length == 0
    || (match t.description with
        | none => true
        | some d => decide (d.length < 50))
    || t.labels.length == 0

/-- The gate around auto-discovery: the discovery block runs iff
`input.autoDiscover` is set and the ticket is sparse. -/
def contextDiscoveryRuns (autoDiscover : Bool) (t : TicketMeta) : Bool :=
  autoDiscover && isSparseTicket t

/- ## Confluence link extraction from ADF (`extractConfluenceLinks`) -/

/-- The `parameters` attribute of a `bodiedExtension` node (`contentId` is
passed through `String(...)`, so it is modelled as a string). -/
structure AdfParams where
  contentId : Option String
  title : Option String
deriving Repr, DecidableEq

/-- The attribute keys `extractConfluenceLinks` reads from `node.attrs`. -/
structure AdfAttrs where
  url : Option String
  title : Option String
  id : Option String
  pageId : Option String
  extensionKey : Option String
  parameters : Option AdfParams
deriving Repr, DecidableEq

/-- An inline mark; only `type` and `attrs?.href` are read. -/
structure AdfMark where
  type : String
  href : Option String
deriving Repr, DecidableEq

/-- A rich-text (ADF) node: type tag, optional attributes, child content,
and marks. -/
inductive Adf where
  | mk (type : String) (attrs : Option AdfAttrs) (content : List Adf) (marks : List AdfMark)
deriving Repr

/-- An extracted document reference (`ConfluenceLink`). -/
structure ConfluenceLink where
  pageId : Option String
  url : String
  title : Option String
deriving Repr, DecidableEq

/-- Extractor state: the `seen` URL set and the output list. -/
structure ExtSt where
  seen : List String
  links : List ConfluenceLink
deriving Repr, DecidableEq

/-- The regex `/[?&]pageId=(\d+)/`: leftmost `?pageId=`/`&pageId=` followed
by at least one digit; the capture is the maximal digit run. -/
def findPageIdParam : List Char → Option String
  | [] => none
  | c :: rest =>
    if (c == '?' || c == '&') && "pageId=".data.isPrefixOf rest then
      let ds := (rest.drop 7).takeWhile Char.isDigit
      if ds.isEmpty then findPageIdParam rest else some (String.mk ds)
    else findPageIdParam rest

/-- The regex `/\/pages\/(\d+)/`: leftmost `/pages/` followed by at least
one digit. -/
def findPagesSeg : List Char → Option String
  | [] => none
  | c :: rest =>
    if c == '/' && "pages/".data.isPrefixOf rest then
      let ds := (rest.drop 6).takeWhile Char.isDigit
      if ds.isEmpty then findPagesSeg rest else some (String.mk ds)
    else findPagesSeg rest

/-- `extractPageIdFromUrl`: the `pageId` query parameter wins over a
`/pages/<id>` path segment; `none` when neither matches. -/
def extractPageIdFromUrl (url : String) : Option String :=
  match findPageIdParam url.data with
  | some s => some s
  | none => findPagesSeg url.data

/-- `url.includes(confluenceBaseUrl) || url.includes("/wiki/")`. -/
def isConfluenceUrl (base url : String) : Bool :=
  strContains url base || strContains url "/wiki/"

/-- The guarded push used at every emission site:
`if (!seen.has(url)) { seen.add(url); links.push({...}) }`. -/
def emitLink (st : ExtSt) (url : String) (title pageId : Option String) : ExtSt :=
  if st.seen.contains url then st
  else ⟨st.seen ++ [url], st.links ++ [⟨pageId, url, title⟩]⟩

/-- The `for (const mark of node.marks)` loop: emit every `link` mark whose
`href` is truthy and points at Confluence. -/
def marksLoop (base : String) : List AdfMark → ExtSt → ExtSt
  | [], st => st
  | m :: ms, st =>
    let st1 :=
      match m.href with
      | some href =>
        if m.type == "link" && !(href == "") then
          if isConfluenceUrl base href then
            emitLink st href none (extractPageIdFromUrl href)
          else st
        else st
      | none => st
    marksLoop base ms st1

/-- The `for (const child of node.content)` loop (the recursive call is a
parameter, as in `linksLoop`). -/
def childrenLoop (recurse : Adf → ExtSt → ExtSt) : List Adf → ExtSt → ExtSt
  | [], st => st
  | n :: ns, st => childrenLoop recurse ns (recurse n st)

/-- The `inlineCard` check: `node.type === "inlineCard" && node.attrs?.url`,
then the Confluence-URL test, then the guarded push. -/
def inlineCardStep (base ty : String) (attrs : Option AdfAttrs) (st : ExtSt) : ExtSt :=
  if ty == "inlineCard" then
    match attrs with
    | some a =>
      match a.url with
      | some url =>
        if url == "" then st
        else if isConfluenceUrl base url then
          emitLink st url a.title (extractPageIdFromUrl url)
        else st
      | none => st
    | none => st
  else st

/-- The `confluencePage` check: `pageId = attrs.id || attrs.pageId`,
`url = attrs.url || (pageId ? <synthesized> : undefined)`, guarded push
when `url` is truthy. -/
def confluencePageStep (base ty : String) (attrs : Option AdfAttrs) (st : ExtSt) : ExtSt :=
  if ty == "confluencePage" then
    match attrs with
    | some a =>
      let pid := jsOr a.id a.pageId
      let url := jsOr a.url
        (if jsFalsy pid then none
         else some (base ++ "/pages/viewpage.action?pageId=" ++ pid.getD ""))
      if jsFalsy url then st
      else
        emitLink st (url.getD "") a.title
          (if jsFalsy pid then extractPageIdFromUrl (url.getD "") else pid)
    | none => st
  else st

/-- The `bodiedExtension` check: extension key `"confluence-content"` with a
truthy `parameters.contentId` synthesizes a URL and pushes. -/
def bodiedExtStep (base ty : String) (attrs : Option AdfAttrs) (st : ExtSt) : ExtSt :=
  if ty == "bodiedExtension" && attrs.bind (fun a => a.extensionKey) == some "confluence-content" then
    match attrs.bind (fun a => a.parameters) with
    | some params =>
      match params.contentId with
      | some cid =>
        if cid == "" then st
        else
          emitLink st (base ++ "/pages/viewpage.action?pageId=" ++ cid) params.title (some cid)
      | none => st
    | none => st
  else st

/-- The recursive `traverse(node)` of `extractConfluenceLinks`: the three
emission checks (`inlineCard`, `confluencePage`, `bodiedExtension`), then
recursion into `content`, then the marks loop.  `fuel` makes the nested
recursion structural; called with fuel at least the node count it never
truncates, since a child's count is strictly below its parent's. -/
def walkAdf (base : String) : Nat → Adf → ExtSt → ExtSt
  | 0, _, st => st
  | fuel + 1, .mk ty attrs content marks, st =>
    let st1 := inlineCardStep base ty attrs st
    let st2 := confluencePageStep base ty attrs st1
    let st3 := bodiedExtStep base ty attrs st2
    let st4 := childrenLoop (walkAdf base fuel) content st3
    marksLoop base marks st4

mutual
/-- Number of nodes of an ADF tree (used only to pick an ample fuel for
`walkAdf`). -/
def adfSize : Adf → Nat
  | .mk _ _ content _ => 1 + adfSizeList content

/-- Total node count of a child list. -/
def adfSizeList : List Adf → Nat
  | [] => 0
  | a :: as => adfSize a + adfSizeList as
end

/-- `extractConfluenceLinks(adf, confluenceBaseUrl)`: run the walk with
fuel `adfSize adf` — strictly more than the depth of every node, so the
fuel never truncates the traversal. -/
def extractConfluenceLinks (adf : Adf) (base : String) : List ConfluenceLink :=
  (walkAdf base (adfSize adf) adf ⟨[], []⟩).links

/- ## Keyword extraction (`extractTerms`, technicalTerms side) -/

/-- JS `\w`: ASCII letters, digits, underscore. -/
def isWordChar (c : Char) : Bool :=
  c.isAlpha || c.isDigit || c == '_'

def isWordOpt : Option Char → Bool
  | none => false
  | some c => isWordChar c

def headOpt : List Char → Option Char
  | [] => none
  | c :: _ => some c

/-- The `\b` assertion between two adjacent positions (out-of-range counts
as a non-word character). -/
def boundaryB (a b : Option Char) : Bool :=
  isWordOpt a != isWordOpt b

/-- Consume a maximal sequence of `[A-Z][a-z]+` groups (the body of
`\b[A-Z][a-z]+(?:[A-Z][a-z]+)+\b`); returns the group list and the rest.
Because `[a-z]` and `[A-Z]` are disjoint and each group ends only at a
non-lowercase character, the greedy decomposition is the only one the
regex engine can produce. -/
def camelGroups : Nat → List Char → (List (List Char) × List Char)
  | 0, cs => ([], cs)
  | fuel + 1, cs =>
    match cs with
    | [] => ([], [])
    | c :: rest =>
      if c.isUpper then
        let ls := rest.takeWhile Char.isLower
        if ls.isEmpty then ([], cs)
        else
          let (gs, rest') := camelGroups fuel (rest.drop ls.length)
          ((c :: ls) :: gs, rest')
      else ([], cs)

/-- `text.match(/\b[A-Z][a-z]+(?:[A-Z][a-z]+)+\b/g)`: scan left to right;
at a word boundary take the maximal group sequence; the match succeeds iff
there are at least two groups and the following character is a non-word
character (shortening the greedy munch always lands before a word
character, so the engine never backtracks into a successful match this
scanner would miss). -/
def camelScan : Nat → Option Char → List Char → List String
  | 0, _, _ => []
  | fuel + 1, prev, cs =>
    match cs with
    | [] => []
    | c :: rest =>
      if boundaryB prev (some c) then
        match camelGroups cs.length cs with
        | (gs, rest') =>
          if 2 ≤ gs.length && !isWordOpt (headOpt rest') then
            String.mk gs.flatten :: camelScan fuel gs.flatten.getLast? rest'
          else camelScan fuel (some c) rest
      else camelScan fuel (some c) rest

/-- `text.match(/\b[A-Z]{2,}\b/g)`: maximal uppercase runs of length at
least two, delimited by word boundaries. -/
def acronymScan : Nat → Option Char → List Char → List String
  | 0, _, _ => []
  | fuel + 1, prev, cs =>
    match cs with
    | [] => []
    | c :: rest =>
      if boundaryB prev (some c) && c.isUpper then
        let us := cs.takeWhile Char.isUpper
        let rest' := cs.drop us.length
        if 2 ≤ us.length && !isWordOpt (headOpt rest') then
          String.mk us :: acronymScan fuel us.getLast? rest'
        else acronymScan fuel (some c) rest
      else acronymScan fuel (some c) rest

/-- The fixed technology vocabulary of pass 3 (`techPatterns`). -/
def techPatterns : List String :=
  ["redis", "kafka", "postgresql", "postgres", "mysql", "mongodb", "elasticsearch",
   "docker", "kubernetes", "jenkins", "gradle", "maven", "spring", "hibernate",
   "react", "angular", "vue", "typescript", "javascript", "python", "java", "kotlin",
   "graphql", "grpc", "protobuf", "avro", "thrift",
   "prometheus", "grafana", "datadog", "splunk", "newrelic",
   "terraform", "ansible", "puppet", "chef",
   "lambda", "dynamodb", "s3", "ec2", "rds", "sqs", "sns", "kinesis"]

/-- `[\w\-]` (first segment of the file-path regex). -/
def isCls1 (c : Char) : Bool := isWordChar c || c == '-'

/-- `[\w\-\/]` (second segment of the file-path regex). -/
def isCls2 (c : Char) : Bool := isWordChar c || c == '-' || c == '/'

/-- `text.match(/\b[\w\-]+\/[\w\-\/]+\.\w+\b/g)`: a boundary, a dash-word
segment, `/`, a dash-word-slash segment, `.`, a word extension, a boundary.
Each character class excludes the delimiter that follows it, so greedy
munching is again the only possible decomposition. -/
def pathScan : Nat → Option Char → List Char → List String
  | 0, _, _ => []
  | fuel + 1, prev, cs =>
    match cs with
    | [] => []
    | c :: rest =>
      if boundaryB prev (some c) && isCls1 c then
        let seg1 := cs.takeWhile isCls1
        match cs.drop seg1.length with
        | '/' :: r2 =>
          let seg2 := r2.takeWhile isCls2
          if seg2.isEmpty then pathScan fuel (some c) rest
          else
            match r2.drop seg2.length with
            | '.' :: r4 =>
              let ext := r4.takeWhile isWordChar
              if ext.isEmpty then pathScan fuel (some c) rest
              else
                let r5 := r4.drop ext.length
                if !isWordOpt (headOpt r5) then
                  String.mk (seg1 ++ '/' :: (seg2 ++ '.' :: ext)) ::
                    pathScan fuel ext.getLast? r5
                else pathScan fuel (some c) rest
            | _ => pathScan fuel (some c) rest
        | _ => pathScan fuel (some c) rest
      else pathScan fuel (some c) rest

/-- `text.match(/\*?\.\w{2,5}\b/g)`: an optional `*`, a dot, then a word
run whose maximal length is between 2 and 5 (a longer run cannot satisfy
the trailing boundary at any shorter cut, so the regex rejects it). -/
def extScan : Nat → List Char → List String
  | 0, _ => []
  | fuel + 1, cs =>
    match cs with
    | [] => []
    | '*' :: '.' :: r2 =>
      let ws := r2.takeWhile isWordChar
      if 2 ≤ ws.length && ws.length ≤ 5 then
        String.mk ('*' :: '.' :: ws) :: extScan fuel (r2.drop ws.length)
      else extScan fuel ('.' :: r2)
    | '.' :: r1 =>
      let ws := r1.takeWhile isWordChar
      if 2 ≤ ws.length && ws.length ≤ 5 then
        String.mk ('.' :: ws) :: extScan fuel (r1.drop ws.length)
      else extScan fuel r1
    | _ :: rest => extScan fuel rest

/-- The `technicalTerms` accumulation of `extractTerms` (passes 1-4; passes
5 and 6 touch only the `keywords` set, which no claim mentions).  `acc`
models the surrounding `Set` in insertion order. -/
def extractTermsTech (acc : List String) (text : Option String) : List String :=
  match text with
  | none => acc
  | some t =>
    let cs := t.data
    let a1 := (camelScan cs.length none cs).foldl setAdd acc
    let a2 := ((acronymScan cs.length none cs).filter
        (fun a => 2 ≤ a.length && a.length ≤ 8)).foldl setAdd a1
    let lower := lowerStr t
    let a3 := techPatterns.foldl
        (fun a tech => if strContains lower tech then setAdd a tech else a) a2
    let a4 := (pathScan cs.length none cs).foldl setAdd a3
    (extScan cs.length cs).foldl setAdd a4

/- ## Concrete fixtures for the scenario claims -/

/-- A minimal raw issue carrying only a summary and links (the other
fields are absent/empty). -/
def simpleRaw (summary : String) (links : List IssueLink) : RawIssue :=
  ⟨some summary, some "Open", some "Task", none, [], [], [], none, none, none, links⟩

/-- The two-node cycle backing store: A links to B with outward name
`"is blocked by"`, B links back to A with outward name `"blocks"`. -/
def fetchAB : String → Option RawIssue := fun k =>
  if k == "A" then some (simpleRaw "Ticket A" [⟨some "B", none, some "is blocked by", none⟩])
  else if k == "B" then some (simpleRaw "Ticket B" [⟨some "A", none, some "blocks", none⟩])
  else none

/-- A one-link store: A relates to B (a non-blocking label); B is absent. -/
def fetchRel : String → Option RawIssue := fun k =>
  if k == "A" then some (simpleRaw "Root ticket" [⟨some "B", none, some "relates to", none⟩])
  else none

/-- A store on which every fetch fails. -/
def fetchFail : String → Option RawIssue := fun _ => none

/-- The C7 inline-card node. -/
def adfCard555 : Adf :=
  .mk "inlineCard"
    (some ⟨some "https://wiki.example/wiki/pages/viewpage.action?pageId=555",
           none, none, none, none, none⟩)
    [] []

/-- A document wrapping the inline card in a paragraph. -/
def adfDoc555 : Adf := .mk "doc" none [.mk "paragraph" none [adfCard555] []] []

/-- The C8 scenario description. -/
def c8text : String := "Integrate with RedisCache using the GeolocationProvider class"

end JiraDep

namespace JiraDep

/- ## Helper lemmas about the traversal -/

theorem linksLoop_edges_mono {recurse : String → TravState → TravState} {doRec : Bool}
    {k : String} (hrec : ∀ t s e, e ∈ s.edges → e ∈ (recurse t s).edges) :
    ∀ (ls : List IssueLink) (st : TravState) (e : Edge),
      e ∈ st.edges → e ∈ (linksLoop recurse doRec k ls st).edges := by
  intro ls
  induction ls with
  | nil => intro st e h; simpa [linksLoop] using h
  | cons l ls ih =>
    intro st e h
    rw [linksLoop]
    cases hd : deriveLink l with
    | none => exact ih st e h
    | some p =>
      obtain ⟨t, ty⟩ := p
      apply ih
      by_cases hb : doRec = true
      · simp only [hb, if_true]
        exact hrec t _ e (by simp [h])
      · simp only [Bool.not_eq_true] at hb
        simp [hb, h]

theorem linksLoop_nodes_mono {recurse : String → TravState → TravState} {doRec : Bool}
    {k : String} (hrec : ∀ t s n, n ∈ s.nodes → n ∈ (recurse t s).nodes) :
    ∀ (ls : List IssueLink) (st : TravState) (n : NodeRec),
      n ∈ st.nodes → n ∈ (linksLoop recurse doRec k ls st).nodes := by
  intro ls
  induction ls with
  | nil => intro st n h; simpa [linksLoop] using h
  | cons l ls ih =>
    intro st n h
    rw [linksLoop]
    cases hd : deriveLink l with
    | none => exact ih st n h
    | some p =>
      obtain ⟨t, ty⟩ := p
      apply ih
      by_cases hb : doRec = true
      · simp only [hb, if_true]
        exact hrec t _ n (by simp [h])
      · simp only [Bool.not_eq_true] at hb
        simp [hb, h]

theorem traverseF_edges_mono (fetch : String → Option RawIssue) (maxDepth cl : Nat) :
    ∀ (fuel : Nat) (k : String) (d : Nat) (st : TravState) (e : Edge),
      e ∈ st.edges → e ∈ (traverseF fetch maxDepth cl fuel k d st).edges := by
  intro fuel
  induction fuel with
  | zero => intro k d st e h; simpa [traverseF] using h
  | succ fuel ih =>
    intro k d st e h
    rw [traverseF]
    by_cases h1 : d > maxDepth
    · simpa [h1] using h
    by_cases h2 : k ∈ st.visited
    · simpa [h1, h2] using h
    by_cases h3 : k ∈ st.visiting
    · simpa [h1, h2, h3] using h
    cases hf : fetch k with
    | none => simpa [h1, h2, h3, hf] using h
    | some raw =>
      simp [h1, h2, h3, hf]
      refine linksLoop_edges_mono (fun t s e' h' => ih t (d + 1) s e' h') _ _ e ?_
      split <;> simpa using h

theorem traverseF_nodes_mono (fetch : String → Option RawIssue) (maxDepth cl : Nat) :
    ∀ (fuel : Nat) (k : String) (d : Nat) (st : TravState) (n : NodeRec),
      n ∈ st.nodes → n ∈ (traverseF fetch maxDepth cl fuel k d st).nodes := by
  intro fuel
  induction fuel with
  | zero => intro k d st n h; simpa [traverseF] using h
  | succ fuel ih =>
    intro k d st n h
    rw [traverseF]
    by_cases h1 : d > maxDepth
    · simpa [h1] using h
    by_cases h2 : k ∈ st.visited
    · simpa [h1, h2] using h
    by_cases h3 : k ∈ st.visiting
    · simpa [h1, h2, h3] using h
    cases hf : fetch k with
    | none => simpa [h1, h2, h3, hf] using h
    | some raw =>
      simp [h1, h2, h3, hf]
      refine linksLoop_nodes_mono (fun t s n' h' => ih t (d + 1) s n' h') _ _ n ?_
      split <;> simp [h]

theorem traverseF_cycle_step (fetch : String → Option RawIssue) (maxDepth cl fuel : Nat)
    (k : String) (d : Nat) (st : TravState)
    (h1 : ¬ d > maxDepth) (h2 : ¬ k ∈ st.visited) (h3 : k ∈ st.visiting) :
    traverseF fetch maxDepth cl (fuel + 1) k d st =
      { st with circularDeps := setAdd st.circularDeps (k ++ " (circular dependency detected)") } := by
  rw [traverseF]
  simp [h1, h2, h3]

theorem traverseF_fetchFail_step (fetch : String → Option RawIssue) (maxDepth cl fuel : Nat)
    (k : String) (d : Nat) (st : TravState)
    (h1 : ¬ d > maxDepth) (h2 : ¬ k ∈ st.visited) (h3 : ¬ k ∈ st.visiting)
    (hf : fetch k = none) :
    traverseF fetch maxDepth cl (fuel + 1) k d st =
      { st with visiting := (setAdd st.visiting k).erase k,
                visited := setAdd st.visited k,
                fetchLog := st.fetchLog ++ [k] } := by
  rw [traverseF]
  simp [h1, h2, h3, hf]

theorem traverseF_main_step (fetch : String → Option RawIssue) (maxDepth cl fuel : Nat)
    (k : String) (d : Nat) (st : TravState) (raw : RawIssue)
    (h1 : ¬ d > maxDepth) (h2 : ¬ k ∈ st.visited) (h3 : ¬ k ∈ st.visiting)
    (hf : fetch k = some raw) :
    traverseF fetch maxDepth cl (fuel + 1) k d st =
      (fun st2 => { st2 with visiting := st2.visiting.erase k,
                             visited := setAdd st2.visited k })
        (linksLoop (fun t s => traverseF fetch maxDepth cl fuel t (d + 1) s)
          (decide (d < maxDepth)) k raw.issuelinks
          (if st.nodes.any (fun n => n.key == k) then
            { st with visiting := setAdd st.visiting k, fetchLog := st.fetchLog ++ [k] }
          else
            { st with nodes := st.nodes ++ [mkNode k raw cl],
                      visiting := setAdd st.visiting k,
                      fetchLog := st.fetchLog ++ [k] })) := by
  rw [traverseF]
  simp [h1, h2, h3, hf]

theorem setAdd_nodup {l : List String} {s : String} (h : l.Nodup) : (setAdd l s).Nodup := by
  unfold setAdd
  by_cases hc : s ∈ l
  · simpa [hc] using h
  · simp [hc, List.nodup_append, h]

theorem linksLoop_circ_nodup {recurse : String → TravState → TravState} {doRec : Bool}
    {k : String}
    (hrec : ∀ t s, s.circularDeps.Nodup → (recurse t s).circularDeps.Nodup) :
    ∀ (ls : List IssueLink) (st : TravState),
      st.circularDeps.Nodup → (linksLoop recurse doRec k ls st).circularDeps.Nodup := by
  intro ls
  induction ls with
  | nil => intro st h; simpa [linksLoop] using h
  | cons l ls ih =>
    intro st h
    rw [linksLoop]
    cases hd : deriveLink l with
    | none => exact ih st h
    | some p =>
      obtain ⟨t, ty⟩ := p
      apply ih
      by_cases hb : doRec = true
      · simp only [hb, if_true]
        exact hrec t _ (by simpa using h)
      · simp only [Bool.not_eq_true] at hb
        simpa [hb] using h

theorem traverseF_circ_nodup (fetch : String → Option RawIssue) (maxDepth cl : Nat) :
    ∀ (fuel : Nat) (k : String) (d : Nat) (st : TravState),
      st.circularDeps.Nodup → (traverseF fetch maxDepth cl fuel k d st).circularDeps.Nodup := by
  intro fuel
  induction fuel with
  | zero => intro k d st h; simpa [traverseF] using h
  | succ fuel ih =>
    intro k d st h
    by_cases h1 : d > maxDepth
    · rw [traverseF]; simpa [h1] using h
    by_cases h2 : k ∈ st.visited
    · rw [traverseF]
      simpa [h1, h2] using h
    by_cases h3 : k ∈ st.visiting
    · rw [traverseF_cycle_step fetch maxDepth cl fuel k d st h1 h2 h3]
      exact setAdd_nodup h
    cases hf : fetch k with
    | none =>
      rw [traverseF_fetchFail_step fetch maxDepth cl fuel k d st h1 h2 h3 hf]
      simpa using h
    | some raw =>
      rw [traverseF_main_step fetch maxDepth cl fuel k d st raw h1 h2 h3 hf]
      refine linksLoop_circ_nodup (fun t s hs => ih t (d + 1) s hs) raw.issuelinks _ ?_
      split <;> simpa using h

/-- The C9 invariant: every recorded edge's `from` endpoint has a node in
the graph. -/
def edgeFromInv (st : TravState) : Prop :=
  ∀ e ∈ st.edges, ∃ n ∈ st.nodes, n.key = e.fromKey

theorem linksLoop_edgeFromInv {recurse : String → TravState → TravState} {doRec : Bool}
    {k : String}
    (hrecInv : ∀ t s, edgeFromInv s → edgeFromInv (recurse t s))
    (hrecNodes : ∀ t s n, n ∈ s.nodes → n ∈ (recurse t s).nodes) :
    ∀ (ls : List IssueLink) (st : TravState),
      edgeFromInv st → (∃ n ∈ st.nodes, n.key = k) →
      edgeFromInv (linksLoop recurse doRec k ls st) := by
  intro ls
  induction ls with
  | nil => intro st h _; simpa [linksLoop] using h
  | cons l ls ih =>
    intro st h hk
    rw [linksLoop]
    cases hd : deriveLink l with
    | none => exact ih st h hk
    | some p =>
      obtain ⟨t, ty⟩ := p
      have h1 : edgeFromInv { st with edges := st.edges ++ [⟨k, t, ty⟩] } := by
        intro e he
        simp only [List.mem_append] at he
        rcases he with he | he
        · exact h e he
        · simp only [List.mem_singleton] at he
          subst he
          obtain ⟨n, hn, hkey⟩ := hk
          exact ⟨n, hn, hkey⟩
      have hk1 : ∃ n ∈ ({ st with edges := st.edges ++ [⟨k, t, ty⟩] } : TravState).nodes,
          n.key = k := hk
      dsimp only
      by_cases hb : doRec = true
      · rw [if_pos hb]
        refine ih _ (hrecInv t _ h1) ?_
        obtain ⟨n, hn, hkey⟩ := hk1
        exact ⟨n, hrecNodes t _ n hn, hkey⟩
      · rw [if_neg hb]
        exact ih _ h1 hk1

theorem traverseF_edgeFromInv (fetch : String → Option RawIssue) (maxDepth cl : Nat) :
    ∀ (fuel : Nat) (k : String) (d : Nat) (st : TravState),
      edgeFromInv st → edgeFromInv (traverseF fetch maxDepth cl fuel k d st) := by
  intro fuel
  induction fuel with
  | zero => intro k d st h; simpa [traverseF] using h
  | succ fuel ih =>
    intro k d st h
    by_cases h1 : d > maxDepth
    · rw [traverseF]; simpa [h1] using h
    by_cases h2 : k ∈ st.visited
    · rw [traverseF]
      simpa [h1, h2] using h
    by_cases h3 : k ∈ st.visiting
    · rw [traverseF_cycle_step fetch maxDepth cl fuel k d st h1 h2 h3]
      exact fun e he => h e he
    cases hf : fetch k with
    | none =>
      rw [traverseF_fetchFail_step fetch maxDepth cl fuel k d st h1 h2 h3 hf]
      exact fun e he => h e he
    | some raw =>
      rw [traverseF_main_step fetch maxDepth cl fuel k d st raw h1 h2 h3 hf]
      refine linksLoop_edgeFromInv (fun t s hs => ih t (d + 1) s hs)
        (fun t s n hn => traverseF_nodes_mono fetch maxDepth cl fuel t (d + 1) s n hn)
        raw.issuelinks _ ?_ ?_
      · by_cases hn : st.nodes.any (fun n => n.key == k) = true
        · simp only [hn, if_true]
          exact fun e he => h e he
        · have hn' : st.nodes.any (fun n => n.key == k) = false := by simpa using hn
          simp only [hn', Bool.false_eq_true, if_false]
          intro e he
          obtain ⟨n, hmem, hkey⟩ := h e he
          exact ⟨n, by simp [hmem], hkey⟩
      · by_cases hn : st.nodes.any (fun n => n.key == k) = true
        · simp only [hn, if_true]
          obtain ⟨n, hmem, hkey⟩ := List.any_eq_true.mp hn
          exact ⟨n, hmem, by simpa using hkey⟩
        · have hn' : st.nodes.any (fun n => n.key == k) = false := by simpa using hn
          simp only [hn', Bool.false_eq_true, if_false]
          exact ⟨mkNode k raw cl, by simp, rfl⟩

theorem linksLoop_edge_mem {recurse : String → TravState → TravState} {doRec : Bool}
    {k : String} (hrec : ∀ t s e, e ∈ s.edges → e ∈ (recurse t s).edges) :
    ∀ (ls : List IssueLink) (st : TravState) (l : IssueLink) (t ty : String),
      l ∈ ls → deriveLink l = some (t, ty) →
      (⟨k, t, ty⟩ : Edge) ∈ (linksLoop recurse doRec k ls st).edges := by
  intro ls
  induction ls with
  | nil => intro st l t ty h; cases h
  | cons l0 ls ih =>
    intro st l t ty hmem hd
    rcases List.mem_cons.mp hmem with h | h
    · subst h
      rw [linksLoop]
      simp only [hd]
      apply linksLoop_edges_mono hrec
      by_cases hb : doRec = true
      · simp only [hb, if_true]
        exact hrec t _ _ (by simp)
      · simp only [Bool.not_eq_true] at hb
        simp [hb]
    · rw [linksLoop]
      cases hd0 : deriveLink l0 with
      | none => exact ih st l t ty h hd
      | some p => exact ih _ l t ty h hd

/- ## Helper lemmas about the insights computation -/

theorem foldl_max_ones (p : Edge → Bool) :
    ∀ (l : List Edge) (acc : Nat),
      ((l.filter p).map (fun _ => 1)).foldl max acc = if l.any p then max acc 1 else acc := by
  intro l
  induction l with
  | nil => intro acc; simp
  | cons a l ih =>
    intro acc
    by_cases hp : p a = true
    · simp only [List.filter_cons, hp, if_true, List.map_cons, List.foldl_cons, List.any_cons,
        Bool.true_or, if_true]
      rw [ih]
      split <;> omega
    · have hp' : p a = false := by simpa using hp
      simp only [List.filter_cons, hp', Bool.false_eq_true, if_false, List.any_cons,
        Bool.false_or]
      exact ih acc

/- ## Helper lemmas about the Confluence link extractor -/

/-- The dedup invariant of the extractor state: output URLs are pairwise
distinct and every emitted URL is in `seen`. -/
def ExtInv (st : ExtSt) : Prop :=
  (st.links.map ConfluenceLink.url).Nodup ∧ ∀ l ∈ st.links, l.url ∈ st.seen

theorem emitLink_inv {st : ExtSt} (h : ExtInv st) (url : String) (title pid : Option String) :
    ExtInv (emitLink st url title pid) := by
  unfold emitLink
  by_cases hc : url ∈ st.seen
  · simpa [hc] using h
  · rw [if_neg (show ¬ st.seen.contains url = true by simpa using hc)]
    have hnot : url ∉ st.links.map ConfluenceLink.url := by
      intro hmem
      obtain ⟨l, hl, hurl⟩ := List.mem_map.mp hmem
      exact hc (hurl ▸ h.2 l hl)
    constructor
    · simp only [List.map_append, List.map_cons, List.map_nil]
      rw [← List.concat_eq_append]
      exact List.Nodup.concat hnot h.1
    · intro l hl
      rcases List.mem_append.mp hl with h1 | h1
      · exact List.mem_append_left _ (h.2 l h1)
      · simp only [List.mem_singleton] at h1
        subst h1
        exact List.mem_append_right _ (by simp)

theorem inlineCardStep_inv {st : ExtSt} (base ty : String) (attrs : Option AdfAttrs)
    (h : ExtInv st) : ExtInv (inlineCardStep base ty attrs st) := by
  unfold inlineCardStep
  repeat' first
    | exact emitLink_inv h _ _ _
    | exact h
    | split

theorem confluencePageStep_inv {st : ExtSt} (base ty : String) (attrs : Option AdfAttrs)
    (h : ExtInv st) : ExtInv (confluencePageStep base ty attrs st) := by
  unfold confluencePageStep
  repeat' first
    | exact emitLink_inv h _ _ _
    | exact h
    | split
    | dsimp only

theorem bodiedExtStep_inv {st : ExtSt} (base ty : String) (attrs : Option AdfAttrs)
    (h : ExtInv st) : ExtInv (bodiedExtStep base ty attrs st) := by
  unfold bodiedExtStep
  repeat' first
    | exact emitLink_inv h _ _ _
    | exact h
    | split

theorem marksLoop_inv (base : String) :
    ∀ (ms : List AdfMark) (st : ExtSt), ExtInv st → ExtInv (marksLoop base ms st) := by
  intro ms
  induction ms with
  | nil => intro st h; simpa [marksLoop] using h
  | cons m ms ih =>
    intro st h
    rw [marksLoop]
    apply ih
    cases hh : m.href with
    | none => exact h
    | some href =>
      repeat' first
        | exact emitLink_inv h _ _ _
        | exact h
        | split

theorem childrenLoop_inv {recurse : Adf → ExtSt → ExtSt}
    (hrec : ∀ a s, ExtInv s → ExtInv (recurse a s)) :
    ∀ (ls : List Adf) (st : ExtSt), ExtInv st → ExtInv (childrenLoop recurse ls st) := by
  intro ls
  induction ls with
  | nil => intro st h; simpa [childrenLoop] using h
  | cons n ns ih =>
    intro st h
    rw [childrenLoop]
    exact ih _ (hrec n st h)

theorem walkAdf_inv (base : String) :
    ∀ (fuel : Nat) (a : Adf) (st : ExtSt), ExtInv st → ExtInv (walkAdf base fuel a st) := by
  intro fuel
  induction fuel with
  | zero => intro a st h; simpa [walkAdf] using h
  | succ fuel ih =>
    intro a st h
    obtain ⟨ty, attrs, content, marks⟩ := a
    rw [walkAdf]
    apply marksLoop_inv
    apply childrenLoop_inv (fun a s hs => ih a s hs)
    exact bodiedExtStep_inv base ty attrs
      (confluencePageStep_inv base ty attrs (inlineCardStep_inv base ty attrs h))

end JiraDep

namespace JiraDep

/- ## The claims -/

/-- C1 (amended).  When the key being expanded is on the active recursion
path (`visiting`), the traversal appends the marker
`"<key> (circular dependency detected)"` at most once per distinct key
(the push is guarded, and the marker list stays duplicate-free), performs
no fetch and no expansion for that key (the returned state differs from
the input state only in `circularDeps`), and terminates.  The two-node
scenario A -(is blocked by)-> B, B -(blocks)-> A needs depth 3 (not 2, as
the original claim states) to produce nodes {A,B}, edges
[(A,B,"is blocked by"), (B,A,"blocks")] and circular_deps exactly
["A (circular dependency detected)"]; A is fetched only once. -/
theorem c1_cycle_marker_amended :
    (∀ (fetch : String → Option RawIssue) (maxDepth cl fuel : Nat) (k : String) (d : Nat)
        (st : TravState), ¬ d > maxDepth → k ∉ st.visited → k ∈ st.visiting →
        traverseF fetch maxDepth cl (fuel + 1) k d st =
          { st with circularDeps :=
              setAdd st.circularDeps (k ++ " (circular dependency detected)") }) ∧
    (∀ (fetch : String → Option RawIssue) (maxDepth cl fuel : Nat) (k : String) (d : Nat)
        (st : TravState), st.circularDeps.Nodup →
        (traverseF fetch maxDepth cl fuel k d st).circularDeps.Nodup) ∧
    ((runTraversal fetchAB 3 5 "A").nodes.map NodeRec.key = ["A", "B"] ∧
     (runTraversal fetchAB 3 5 "A").edges =
       [⟨"A", "B", "is blocked by"⟩, ⟨"B", "A", "blocks"⟩] ∧
     (runTraversal fetchAB 3 5 "A").circularDeps = ["A (circular dependency detected)"] ∧
     (runTraversal fetchAB 3 5 "A").fetchLog = ["A", "B"]) := by
  refine ⟨?_, ?_, by decide, by decide, by decide, by decide⟩
  · intro fetch maxDepth cl fuel k d st h1 h2 h3
    exact traverseF_cycle_step fetch maxDepth cl fuel k d st h1 h2 h3
  · intro fetch maxDepth cl fuel k d st h
    exact traverseF_circ_nodup fetch maxDepth cl fuel k d st h

/-- C1 counterexample.  In the claimed two-node cycle scenario at depth 2
the traversal produces the claimed nodes and edges but an empty
`circular_deps` — the marker `"A (circular dependency detected)"` is not
recorded, because at depth 2 the back edge to A is recorded without
expanding A (`currentDepth < maxDepth` fails), so the `visiting` check
never sees A again. -/
theorem c1_counterexample_depth2_cycle_unreported :
    (runTraversal fetchAB 2 5 "A").nodes.map NodeRec.key = ["A", "B"] ∧
    (runTraversal fetchAB 2 5 "A").edges =
      [⟨"A", "B", "is blocked by"⟩, ⟨"B", "A", "blocks"⟩] ∧
    (runTraversal fetchAB 2 5 "A").circularDeps = [] ∧
    (runTraversal fetchAB 2 5 "A").circularDeps ≠ ["A (circular dependency detected)"] := by
  exact ⟨by decide, by decide, by decide, by decide⟩

/-- C1 witness: the visiting branch applied at a concrete state with A on
the recursion path appends exactly the one marker and changes nothing
else. -/
theorem c1_cycle_marker_amended_witness :
    traverseF fetchAB 2 5 (0 + 1) "A" 2 ⟨[], [], [], ["A"], [], []⟩ =
      ⟨[], [], [], ["A"], ["A (circular dependency detected)"], []⟩ :=
  (c1_cycle_marker_amended.1 fetchAB 2 5 0 "A" 2 ⟨[], [], [], ["A"], [], []⟩
    (by decide) (by decide) (by decide)).trans (by decide)

/-- C2.  Every link found on a successfully fetched node `k` at depth
`d ≤ maxDepth` contributes the edge `(k, targetKey, relationLabel)` to the
final edge list, even when `d = maxDepth` and the target is not expanded;
in the concrete depth-1 scenario A links to B, the edge (A,B,"relates to")
is recorded while B is absent from the node list, and the traversal
returns this dangling edge as a normal result. -/
theorem c2_edges_recorded_unconditionally :
    (∀ (fetch : String → Option RawIssue) (maxDepth cl fuel : Nat) (k : String) (d : Nat)
        (st : TravState) (raw : RawIssue) (l : IssueLink) (t ty : String),
        ¬ d > maxDepth → k ∉ st.visited → k ∉ st.visiting →
        fetch k = some raw → l ∈ raw.issuelinks → deriveLink l = some (t, ty) →
        (⟨k, t, ty⟩ : Edge) ∈ (traverseF fetch maxDepth cl (fuel + 1) k d st).edges) ∧
    ((runTraversal fetchRel 1 5 "A").edges = [⟨"A", "B", "relates to"⟩] ∧
     (runTraversal fetchRel 1 5 "A").nodes.map NodeRec.key = ["A"] ∧
     "B" ∉ (runTraversal fetchRel 1 5 "A").nodes.map NodeRec.key) := by
  refine ⟨?_, by decide, by decide, by decide⟩
  intro fetch maxDepth cl fuel k d st raw l t ty h1 h2 h3 hf hl hdl
  rw [traverseF_main_step fetch maxDepth cl fuel k d st raw h1 h2 h3 hf]
  exact linksLoop_edge_mem
    (fun t' s e h => traverseF_edges_mono fetch maxDepth cl fuel t' (d + 1) s e h)
    raw.issuelinks _ l t ty hl hdl

/-- C2 witness: the general statement applied to the depth-1 fixture. -/
theorem c2_edges_recorded_unconditionally_witness :
    (⟨"A", "B", "relates to"⟩ : Edge) ∈ (runTraversal fetchRel 1 5 "A").edges :=
  c2_edges_recorded_unconditionally.1 fetchRel 1 5 1 "A" 1 initState
    (simpleRaw "Root ticket" [⟨some "B", none, some "relates to", none⟩])
    ⟨some "B", none, some "relates to", none⟩ "B" "relates to"
    (by decide) (by decide) (by decide) (by decide) (by decide) (by decide)

/-- C3 counterexample.  A root whose only outbound edge is labelled
"relates to" (not a blocking label) still gets `blocking_chain_length = 1`:
the code filters edges by origin only, never by label, so the claimed
equivalence with "has an outbound blocking edge" fails. -/
theorem c3_counterexample_nonblocking_edge_counts :
    blockingChainLength (runTraversal fetchRel 1 5 "A").edges "A" = 1 ∧
    (∀ e ∈ (runTraversal fetchRel 1 5 "A").edges, isBlockingLabel e.linkType = false) ∧
    blockingChainLength (runTraversal fetchRel 1 5 "A").edges "A" ≠ 0 := by
  exact ⟨by decide, by decide, by decide⟩

/-- C3 (amended).  `blocking_chain_length` is 1 iff the root has at least
one outbound edge of any label (the filter tests only `e.from === root`),
and 0 otherwise; in the "relates to" scenario it is therefore 1. -/
theorem c3_blocking_chain_length_amended :
    (∀ (edges : List Edge) (rootKey : String),
      blockingChainLength edges rootKey =
        if edges.any (fun e => e.fromKey == rootKey) then 1 else 0) ∧
    computeInsightsCore (runTraversal fetchRel 1 5 "A").nodes
      (runTraversal fetchRel 1 5 "A").edges "A" = ⟨0, 1⟩ := by
  refine ⟨?_, by decide⟩
  intro edges rootKey
  unfold blockingChainLength
  rw [foldl_max_ones]
  split <;> rfl

/-- C4 counterexample.  With a backend that always answers 404 (and
likewise 401/403), `request` performs 3 fetches — the thrown `Error` is
caught by the loop's own `catch`, which backs off (600 ms, then 1200 ms)
and retries — instead of failing immediately on the first response as the
claim states. -/
theorem c4_counterexample_404_retried :
    request (fun _ => .httpStatus 404 none) =
      ⟨.error (.httpError 404), 3, [600, 1200]⟩ ∧
    (request (fun _ => .httpStatus 404 none)).fetches ≠ 1 ∧
    request (fun _ => .httpStatus 401 none) =
      ⟨.error (.httpError 401), 3, [600, 1200]⟩ ∧
    request (fun _ => .httpStatus 403 none) =
      ⟨.error (.httpError 403), 3, [600, 1200]⟩ := by
  exact ⟨by decide, by decide, by decide, by decide⟩

/-- C4 (amended).  A 2xx answer returns immediately with one fetch.  A
retryable status (429/5xx) is retried with backoff honouring Retry-After
(`retryAfter * 1000` ms, else `500 * 2^attempt` ms) up to 3 attempts, after
which the generic "Unknown Jira client error" surfaces (no `lastErr` was
recorded on that path).  Every other failing status — including 404, 401
and 403 — throws inside the `try`, is caught by the loop's own `catch` and
retried with its backoff (`300 * 2^attempt` ms) up to the same 3-attempt
cap, and only then does the HTTP error surface; there is no distinct
NotFound kind and no immediate propagation. -/
theorem c4_retry_behavior_amended :
    (∀ (responses : Nat → JiraResp) (b : String), responses 0 = .ok b →
      request responses = ⟨.ok (some b), 1, []⟩) ∧
    (∀ code : Nat, isRetryableStatus code = true →
      request (fun _ => .httpStatus code none) =
        ⟨.error .unknown, 3, [500, 1000, 2000]⟩) ∧
    (∀ code s : Nat, isRetryableStatus code = true →
      request (fun _ => .httpStatus code (some s)) =
        ⟨.error .unknown, 3, [s * 1000, s * 1000, s * 1000]⟩) ∧
    (∀ code : Nat, isRetryableStatus code = false →
      request (fun _ => .httpStatus code none) =
        ⟨.error (.httpError code), 3, [600, 1200]⟩) := by
  refine ⟨?_, ?_, ?_, ?_⟩
  · intro responses b h
    simp [request, requestGo, h]
  · intro code h
    simp [request, requestGo, h]
  · intro code s h
    simp [request, requestGo, h]
  · intro code h
    simp [request, requestGo, h]

/-- C4 witness: the amended behaviour at concrete inputs (a 200 with body,
and the 404 case). -/
theorem c4_retry_behavior_amended_witness :
    request (fun _ => .ok "body") = ⟨.ok (some "body"), 1, []⟩ ∧
    isRetryableStatus 404 = false ∧
    request (fun _ => .httpStatus 404 none) = ⟨.error (.httpError 404), 3, [600, 1200]⟩ :=
  ⟨c4_retry_behavior_amended.1 (fun _ => .ok "body") "body" rfl, by decide,
   c4_retry_behavior_amended.2.2.2 404 (by decide)⟩

/-- C5.  A candidate first returned by a strategy of weight `w` is created
with `confidenceScore = w` and `matchReason` equal to that strategy's
description; a later strategy of weight `w2` that returns the same key
updates the score to `min 1 (score + w2 * 0.3)` and appends its
description; hence a candidate matched by strategies of weights `w1` then
`w2` ends with `min 1 (w1 + w2 * 0.3)`. -/
theorem c5_confidence_scoring :
    (∀ (src : String) (w : ℚ) (strat : String) (m : List SimilarTicket) (iss : RawCand),
      (iss.key == src) = false → (∀ t ∈ m, t.key ≠ iss.key) →
      mergeIssue src w strat m iss =
        m ++ [⟨iss.key, iss.summary.getD "", iss.status.getD "", strat, w,
               iss.labels, iss.components⟩]) ∧
    (∀ (src : String) (w : ℚ) (strat : String) (m1 m2 : List SimilarTicket)
        (t : SimilarTicket) (iss : RawCand),
      (iss.key == src) = false → t.key = iss.key →
      (∀ t' ∈ m1, t'.key ≠ iss.key) → (∀ t' ∈ m2, t'.key ≠ iss.key) →
      mergeIssue src w strat (m1 ++ t :: m2) iss =
        m1 ++ { t with confidenceScore := min 1 (t.confidenceScore + w * (3 / 10)),
                       matchReason := t.matchReason ++ ", " ++ strat } :: m2) ∧
    (∀ (src : String) (w1 w2 : ℚ) (d1 d2 : String) (iss : RawCand),
      (iss.key == src) = false →
      runSearches src [⟨d1, w1, some [iss]⟩, ⟨d2, w2, some [iss]⟩] =
        ([⟨iss.key, iss.summary.getD "", iss.status.getD "", d1 ++ ", " ++ d2,
           min 1 (w1 + w2 * (3 / 10)), iss.labels, iss.components⟩], [d1, d2])) := by
  refine ⟨?_, ?_, ?_⟩
  · intro src w strat m iss hsrc hnew
    have hany : m.any (fun t => t.key == iss.key) = false := by
      simp only [List.any_eq_false]
      intro t ht
      simpa using hnew t ht
    simp [mergeIssue, hsrc, hany]
  · intro src w strat m1 m2 t iss hsrc ht hm1 hm2
    have hkey : (t.key == iss.key) = true := by simpa using ht
    have hany : (m1 ++ t :: m2).any (fun t' => t'.key == iss.key) = true :=
      List.any_eq_true.mpr ⟨t, by simp, hkey⟩
    have hm1' : ∀ x ∈ m1,
        (if x.key == iss.key then
          { x with confidenceScore := min 1 (x.confidenceScore + w * (3 / 10)),
                   matchReason := x.matchReason ++ ", " ++ strat } else x) = x := by
      intro x hx
      have : (x.key == iss.key) = false := by simpa using hm1 x hx
      simp [this]
    have hm2' : ∀ x ∈ m2,
        (if x.key == iss.key then
          { x with confidenceScore := min 1 (x.confidenceScore + w * (3 / 10)),
                   matchReason := x.matchReason ++ ", " ++ strat } else x) = x := by
      intro x hx
      have : (x.key == iss.key) = false := by simpa using hm2 x hx
      simp [this]
    simp only [mergeIssue, hsrc, Bool.false_eq_true, if_false, hany, if_true,
      List.map_append, List.map_cons, hkey]
    rw [List.map_congr_left hm1', List.map_congr_left hm2']
    simp
  · intro src w1 w2 d1 d2 iss hsrc
    simp [runSearches, mergeIssue, hsrc]

/-- C5 witness: keyword (0.7) then component (0.9) strategies both return
T-1, ending at min(1, 0.7 + 0.9*0.3) = 0.97. -/
theorem c5_confidence_scoring_witness :
    (("T-1" : String) == "SRC") = false ∧
    runSearches "SRC"
      [⟨"keyword: redis", 7 / 10, some [⟨"T-1", some "s", some "Open", [], []⟩]⟩,
       ⟨"component: infra", 9 / 10, some [⟨"T-1", some "s", some "Open", [], []⟩]⟩] =
      ([⟨"T-1", "s", "Open", "keyword: redis" ++ ", " ++ "component: infra",
         min 1 (7 / 10 + 9 / 10 * (3 / 10)), [], []⟩],
       ["keyword: redis", "component: infra"]) :=
  ⟨by decide,
   c5_confidence_scoring.2.2 "SRC" (7 / 10) (9 / 10) "keyword: redis" "component: infra"
     ⟨"T-1", some "s", some "Open", [], []⟩ (by decide)⟩

set_option maxRecDepth 100000 in
/-- C6.  A root record is sparse exactly when it has zero components, or a
missing/short (< 50 chars) description, or zero labels; the three quoted
examples classify as the claim states, and the auto-discovery block runs
iff `autoDiscover` is set and the record is sparse. -/
theorem c6_sparse_classification :
    (∀ t : TicketMeta, isSparseTicket t = true ↔
      (t.components = [] ∨ t.description = none ∨
       (∃ d, t.description = some d ∧ d.length < 50) ∨ t.labels = [])) ∧
    (∀ (a : Bool) (t : TicketMeta),
      contextDiscoveryRuns a t = true ↔ (a = true ∧ isSparseTicket t = true)) ∧
    (isSparseTicket ⟨[], ["x", "y", "z"], some (String.mk (List.replicate 200 'a'))⟩ = true ∧
     isSparseTicket ⟨[⟨"10", "c"⟩], [], some (String.mk (List.replicate 200 'a'))⟩ = true ∧
     isSparseTicket ⟨[⟨"10", "c"⟩], ["l"], some (String.mk (List.replicate 200 'a'))⟩ = false) := by
  refine ⟨?_, ?_, by decide, by decide, by decide⟩
  · intro t
    obtain ⟨comps, labels, desc⟩ := t
    cases desc with
    | none => simp [isSparseTicket]
    | some d =>
      simp [isSparseTicket, List.length_eq_zero]
      tauto
  · intro a t
    simp [contextDiscoveryRuns]

/-- C7.  A tree containing one inline-card node with the URL
`https://wiki.example/wiki/pages/viewpage.action?pageId=555` yields exactly
one reference, with id "555" extracted from the `pageId` query parameter;
and for every tree the extracted references have pairwise-distinct URLs
(dedup by the `seen` set). -/
theorem c7_document_extraction :
    extractConfluenceLinks adfDoc555 "https://wiki.example/wiki" =
      [⟨some "555", "https://wiki.example/wiki/pages/viewpage.action?pageId=555", none⟩] ∧
    ∀ (adf : Adf) (base : String),
      ((extractConfluenceLinks adf base).map ConfluenceLink.url).Nodup := by
  refine ⟨by decide, ?_⟩
  intro adf base
  have h := walkAdf_inv base (adfSize adf) adf ⟨[], []⟩
    ⟨List.nodup_nil, fun l hl => absurd hl (List.not_mem_nil l)⟩
  exact h.1

set_option maxRecDepth 100000 in
/-- C8.  On the description "Integrate with RedisCache using the
GeolocationProvider class", the technicalTerms accumulation contains
"GeolocationProvider" (produced by the multi-word PascalCase pass) and
"redis" (produced by the case-insensitive vocabulary match, which fires
inside "RedisCache"); the full set is exactly
{RedisCache, GeolocationProvider, redis}. -/
theorem c8_keyword_extraction :
    "GeolocationProvider" ∈ extractTermsTech [] (some c8text) ∧
    "redis" ∈ extractTermsTech [] (some c8text) ∧
    "GeolocationProvider" ∈ camelScan c8text.data.length none c8text.data ∧
    strContains (lowerStr c8text) "redis" = true ∧
    extractTermsTech [] (some c8text) = ["RedisCache", "GeolocationProvider", "redis"] := by
  exact ⟨by decide, by decide, by decide, by decide, by decide⟩

/-- C9.  Invariant of every completed traversal: each edge's `from`
endpoint has a node in the graph — an edge for key k is only recorded
after k's record was inserted into `nodes` in the same expansion step, so
only `to` endpoints can dangle. -/
theorem c9_edge_from_invariant :
    ∀ (fetch : String → Option RawIssue) (maxDepth cl : Nat) (root : String) (e : Edge),
      e ∈ (runTraversal fetch maxDepth cl root).edges →
      ∃ n ∈ (runTraversal fetch maxDepth cl root).nodes, n.key = e.fromKey := by
  intro fetch maxDepth cl root e he
  exact traverseF_edgeFromInv fetch maxDepth cl (maxDepth + 1) root 1 initState
    (fun e' he' => absurd he' (List.not_mem_nil e')) e he

/-- C9 witness: the invariant applied to the concrete dangling-edge run. -/
theorem c9_edge_from_invariant_witness :
    (⟨"A", "B", "relates to"⟩ : Edge) ∈ (runTraversal fetchRel 1 5 "A").edges ∧
    ∃ n ∈ (runTraversal fetchRel 1 5 "A").nodes, n.key = "A" :=
  ⟨by decide, c9_edge_from_invariant fetchRel 1 5 "A" ⟨"A", "B", "relates to"⟩ (by decide)⟩

/-- C10.  If the traversal's own fetch of the root fails, the node list is
empty and `total_dependencies = |nodes| - 1 = -1`, a negative value that
violates the declared `z.number().int().min(0)` output schema. -/
theorem c10_negative_total_dependencies :
    ∀ (fetch : String → Option RawIssue) (maxDepth cl : Nat) (root : String),
      1 ≤ maxDepth → fetch root = none →
      (runTraversal fetch maxDepth cl root).nodes = [] ∧
      (computeInsightsCore (runTraversal fetch maxDepth cl root).nodes
        (runTraversal fetch maxDepth cl root).edges root).total_dependencies = -1 ∧
      ¬ insightsWithinSchema (computeInsightsCore (runTraversal fetch maxDepth cl root).nodes
        (runTraversal fetch maxDepth cl root).edges root) := by
  intro fetch maxDepth cl root hmd hf
  have hrun : runTraversal fetch maxDepth cl root =
      { initState with visiting := (setAdd initState.visiting root).erase root,
                       visited := setAdd initState.visited root,
                       fetchLog := initState.fetchLog ++ [root] } := by
    unfold runTraversal
    exact traverseF_fetchFail_step fetch maxDepth cl maxDepth root 1 initState
      (by omega) (by simp [initState]) (by simp [initState]) hf
  rw [hrun]
  refine ⟨rfl, ?_, ?_⟩
  · norm_num [computeInsightsCore, totalDependencies, initState]
  · norm_num [insightsWithinSchema, computeInsightsCore, totalDependencies, initState]

/-- C10 witness: a depth-3 run whose root fetch fails. -/
theorem c10_negative_total_dependencies_witness :
    (1 ≤ 3 ∧ fetchFail "ROOT" = none) ∧
    ((runTraversal fetchFail 3 5 "ROOT").nodes = [] ∧
     (computeInsightsCore (runTraversal fetchFail 3 5 "ROOT").nodes
        (runTraversal fetchFail 3 5 "ROOT").edges "ROOT").total_dependencies = -1 ∧
     ¬ insightsWithinSchema (computeInsightsCore (runTraversal fetchFail 3 5 "ROOT").nodes
        (runTraversal fetchFail 3 5 "ROOT").edges "ROOT")) :=
  ⟨⟨by decide, by decide⟩,
   c10_negative_total_dependencies fetchFail 3 5 "ROOT" (by decide) (by decide)⟩

end JiraDep
